import Mathlib

/-!
Verification of the reactive-system-modeler verification engine
(`backend/engine/src/Verifier.cpp`, namespace `ReactiveSystem`).

The engine's functions are shallowly embedded below: each C++ function of
`Verifier.cpp` becomes a Lean function over lists.  `std::string` is `String`,
`std::vector` is `List`, and the `std::set<std::string>` of reachable states is
a duplicate-free `List String` grown exactly where the C++ inserts (the C++
iterates the set in sorted order; the membership and size of the set, which is
all the theorems below depend on, are order-independent).  The C++ `while`
loop of the breadth-first search is a fuel-indexed recursion; the fuel
`transitions.length + 2` is shown sufficient inside `bfsLoop_mem_closed`.
-/

namespace ReactiveSystem

/-- Modelled from the spec: the `State` record of `MealyMachine.h` (that header
is not part of the analysed sources; §3 of the spec and the marshalling in
`addon.cc` give its fields): identifier, display name, `isInitial` and
`isFinal` flags. -/
structure State where
  id : String
  name : String
  isInitial : Bool
  isFinal : Bool
deriving DecidableEq, Repr

/-- Modelled from the spec: the `Transition` record of `MealyMachine.h`:
identifier, `from`/`to` state identifiers and the input/output labels (the
labels carry no semantic weight in any analysis).  `from` is a Lean keyword,
hence the field name `from_`. -/
structure Transition where
  id : String
  from_ : String
  to_ : String
  input : String
  output : String
deriving DecidableEq, Repr

/-- Modelled from the spec: the `StateMachine` record of `MealyMachine.h`:
identifier, display name, type tag (informational only) and the ordered state
and transition sequences. -/
structure StateMachine where
  id : String
  name : String
  type : String
  states : List State
  transitions : List Transition
deriving DecidableEq, Repr

/-- `ReachabilityResult` of `Verifier.h` (lines 22-27). -/
structure ReachabilityResult where
  isReachable : Bool
  path : List String
  message : String
deriving DecidableEq, Repr

/-- `InvariantCheckResult` of `Verifier.h` (lines 32-38). -/
structure InvariantCheckResult where
  holds : Bool
  failingState : String
  failingPath : List String
  message : String
deriving DecidableEq, Repr

/-- `Verifier::VerificationReport` of `Verifier.h` (lines 98-107). -/
structure VerificationReport where
  isValid : Bool
  errors : List String
  warnings : List String
  reachableStates : Nat
  totalStates : Nat
  deadlocks : List String
  summary : String
deriving DecidableEq, Repr

/-- The initial-state selection of `Verifier::reachableStatesBFS`
(Verifier.cpp lines 19-27): the first state whose `isInitial` flag is set, the
empty string when there is none (the C++ leaves `initialStateId` empty). -/
def findInitialId (m : StateMachine) : String :=
  match m.states.find? (fun s => s.isInitial) with
  | some s => s.id
  | none => ""

/-- The inner loop of `Verifier::reachableStatesBFS` (Verifier.cpp lines
43-53): the `to` endpoints of the transitions leaving `cur`, in order, that
are not yet in the reachable list `r` — each discovery counts for the
membership tests of the later ones, exactly as the C++ inserts into the set
as it scans. -/
def discover (ts : List Transition) (cur : String) (r : List String) : List String :=
  match ts with
  | [] => []
  | t :: rest =>
    if t.from_ = cur ∧ t.to_ ∉ r then
      t.to_ :: discover rest cur (r ++ [t.to_])
    else
      discover rest cur r

/-- The `while (!queue.empty())` loop of `Verifier::reachableStatesBFS`
(Verifier.cpp lines 37-54), as a fuel-indexed recursion: pop the front of the
queue, append the newly discovered successors to both the queue and the
reachable list.  `bfsLoop_mem_closed` below shows the fuel used by
`reachableStatesBFS` never runs out. -/
def bfsLoop (ts : List Transition) : Nat → List String → List String → List String
  | 0, _, r => r
  | _ + 1, [], r => r
  | fuel + 1, cur :: q, r => bfsLoop ts fuel (q ++ discover ts cur r) (r ++ discover ts cur r)

/-- `Verifier::reachableStatesBFS` (Verifier.cpp lines 13-57).  An empty
`initialStateId` — no state flagged initial, or a first initial state whose
identifier is the empty string — yields the empty set (lines 29-32). -/
def reachableStatesBFS (m : StateMachine) : List String :=
  if findInitialId m = "" then []
  else bfsLoop m.transitions (m.transitions.length + 2) [findInitialId m] [findInitialId m]

/-- `Verifier::getReachableStates` (Verifier.cpp lines 88-92): the set's
contents as a sequence (the C++ copies the `std::set` into a vector). -/
def getReachableStates (m : StateMachine) : List String :=
  reachableStatesBFS m

/-- `Verifier::isDeadlock` (Verifier.cpp lines 97-107): no transition leaves
`stateId`. -/
def isDeadlock (m : StateMachine) (stateId : String) : Bool :=
  m.transitions.all (fun t => t.from_ != stateId)

/-- `Verifier::findDeadlocks` (Verifier.cpp lines 112-125): states with no
outgoing transition that are not flagged final, in state-sequence order. -/
def findDeadlocks (m : StateMachine) : List String :=
  (m.states.filter (fun s => isDeadlock m s.id && !s.isFinal)).map (fun s => s.id)

/-- `Verifier::isLivelock` (Verifier.cpp lines 130-140): every transition
leaving `stateId` loops back to it. -/
def isLivelock (m : StateMachine) (stateId : String) : Bool :=
  m.transitions.all (fun t => !(t.from_ == stateId && t.to_ != stateId))

/-- `pat` occupies the first positions of `l` (`std::string::find` comparison
at one offset). -/
def matchesAt : List Char → List Char → Bool
  | [], _ => true
  | _ :: _, [] => false
  | p :: ps, c :: cs => p == c && matchesAt ps cs

/-- `std::string::find(pat) != npos` on character lists: `pat` matches at some
offset of `l`. -/
def hasSubAux (pat : List Char) : List Char → Bool
  | [] => matchesAt pat []
  | c :: cs => matchesAt pat (c :: cs) || hasSubAux pat cs

/-- `s.find(pat) != std::string::npos` of the C++ (Verifier.cpp lines 169 and
179). -/
def hasSubstr (s pat : String) : Bool :=
  hasSubAux pat.data s.data

/-- The whitespace class of `std::istream` extraction under the default
locale: space, tab, newline, vertical tab, form feed, carriage return. -/
def isStreamSpace (c : Char) : Bool :=
  c == ' ' || c == '\t' || c == '\n' || c == '\r' || c == Char.ofNat 11 || c == Char.ofNat 12

/-- Maximal whitespace-free runs of a character list, accumulating the current
run in reverse in `cur`. -/
def tokensAux : List Char → List Char → List (List Char)
  | cur, [] => if cur.isEmpty then [] else [cur.reverse]
  | cur, c :: cs =>
    if isStreamSpace c then
      if cur.isEmpty then tokensAux [] cs else cur.reverse :: tokensAux [] cs
    else tokensAux (c :: cur) cs

/-- The whitespace-separated tokens of an expression, as
`std::istringstream >> ...` would extract them one by one. -/
def tokensOf (s : String) : List String :=
  (tokensAux [] s.data).map (fun l => String.mk l)

/-- The third token `value` read by `iss >> state >> op >> value` (Verifier.cpp
lines 172-174 and 182-184); a missing token leaves the default-constructed
empty string. -/
def thirdTokenOf (s : String) : String :=
  (tokensOf s).getD 2 ""

/-- `Verifier::evaluateExpression` (Verifier.cpp lines 145-191): look the
current state up by identifier (first match; `false` when absent, lines
151-164), then take the `"!="` branch, else the `"=="` branch, else `true`,
comparing the state's display name with the third token. -/
def evaluateExpression (expression : String) (m : StateMachine) (currentStateId : String) :
    Bool :=
  match m.states.find? (fun s => s.id == currentStateId) with
  | none => false
  | some currentState =>
    if hasSubstr expression "!=" then currentState.name != thirdTokenOf expression
    else if hasSubstr expression "==" then currentState.name == thirdTokenOf expression
    else true

/-- `Verifier::checkInvariant` (Verifier.cpp lines 196-219): the first
reachable state falsifying the expression, if any.  (The C++ scans the
reachable set in its sorted order; which violation comes first depends on that
order, the `holds` field does not.) -/
def checkInvariant (m : StateMachine) (invariantExpression : String) : InvariantCheckResult :=
  match (getReachableStates m).find?
      (fun stateId => !(evaluateExpression invariantExpression m stateId)) with
  | some stateId =>
    { holds := false
      failingState := stateId
      failingPath := [stateId]
      message := "Invariant violated at state: " ++ stateId }
  | none =>
    { holds := true
      failingState := ""
      failingPath := []
      message := "Invariant holds on all reachable states" }

/-- `Verifier::canReachFinalState` (Verifier.cpp lines 224-243): the first
state in machine order that is flagged final and lies in the reachable set. -/
def canReachFinalState (m : StateMachine) : ReachabilityResult :=
  match m.states.find? (fun s => s.isFinal && (reachableStatesBFS m).contains s.id) with
  | some s =>
    { isReachable := true
      path := []
      message := "Final state '" ++ s.name ++ "' is reachable" }
  | none =>
    { isReachable := false
      path := []
      message := "No final state reachable" }

/-- One iteration of the transition-endpoint loop of `Verifier::generateReport`
(Verifier.cpp lines 275-297), acting on the pair (validity so far, errors so
far). -/
def endpointStep (m : StateMachine) (acc : Bool × List String) (t : Transition) :
    Bool × List String :=
  let fromExists := m.states.any (fun s => s.id == t.from_)
  let toExists := m.states.any (fun s => s.id == t.to_)
  let acc1 :=
    if fromExists then acc
    else (false, acc.2 ++ ["ERROR: Transition from non-existent state: " ++ t.from_])
  if toExists then acc1
  else (false, acc1.2 ++ ["ERROR: Transition to non-existent state: " ++ t.to_])

/-- `Verifier::generateReport` (Verifier.cpp lines 248-342): initial-state
cardinality check, transition-endpoint check, reachability counts, the
unreachable-state warnings (guarded by `reachableStates < totalStates`, line
304), the deadlock warnings, the final-state warning and the summary line. -/
def generateReport (m : StateMachine) : VerificationReport :=
  let initialCount := (m.states.filter (fun s => s.isInitial)).length
  let step1 : Bool × List String :=
    if initialCount = 0 then (false, ["ERROR: No initial state defined"])
    else if 1 < initialCount then (false, ["ERROR: Multiple initial states defined"])
    else (true, [])
  let step2 := m.transitions.foldl (endpointStep m) step1
  let reachable := getReachableStates m
  let warnUnreachable :=
    if reachable.length < m.states.length then
      (m.states.filter (fun s => !(reachable.contains s.id))).map
        (fun s => "WARNING: Unreachable state: " ++ s.name)
    else []
  let dls := findDeadlocks m
  let warnDeadlocks := dls.map (fun d => "WARNING: Potential deadlock state: " ++ d)
  let warnFinal :=
    if (canReachFinalState m).isReachable then []
    else ["WARNING: No final state is reachable"]
  { isValid := step2.1
    errors := step2.2
    warnings := warnUnreachable ++ warnDeadlocks ++ warnFinal
    reachableStates := reachable.length
    totalStates := m.states.length
    deadlocks := dls
    summary :=
      "States: " ++ toString m.states.length ++ " (Reachable: " ++
        toString reachable.length ++ ")" ++ " | Transitions: " ++
        toString m.transitions.length ++ " | Status: " ++
        (if step2.1 then "VALID" else "INVALID") }

end ReactiveSystem

namespace ReactiveSystem

/-- Closure under outgoing transitions: for every member `s` of `r` and every
transition leaving `s`, the target is also a member of `r`. -/
def closedUnder (ts : List Transition) (r : List String) : Prop :=
  ∀ s ∈ r, ∀ t ∈ ts, t.from_ = s → t.to_ ∈ r

/-- A transition from state `a` to the non-existent state `x`. -/
def trAX : Transition := ⟨"t1", "a", "x", "", ""⟩

/-- A transition from state `a` to the non-existent state `y`. -/
def trAY : Transition := ⟨"t2", "a", "y", "", ""⟩

/-- Two states `a` (initial) and `b`, and two transitions out of `a` whose
targets `x` and `y` name no state: `b` is unreachable, yet the reachable set
of `a`, `x` and `y` has three members, more than the two listed states. -/
def mDangling : StateMachine :=
  ⟨"m1", "Dangling", "moore",
    [⟨"a", "A", true, false⟩, ⟨"b", "B", false, false⟩], [trAX, trAY]⟩

/-- A machine whose only state is flagged initial but has the empty string as
its identifier: the C++ sentinel `initialStateId.empty()` then reports "no
initial state". -/
def mEmptyId : StateMachine := ⟨"m2", "EmptyId", "moore", [⟨"", "A", true, false⟩], []⟩

/-- One initial state `a` and one dangling transition `a → x`. -/
def mSingleDangling : StateMachine :=
  ⟨"m3", "SingleDangling", "moore", [⟨"a", "A", true, false⟩], [trAX]⟩

/-- One initial state and no transitions. -/
def mPlain : StateMachine := ⟨"m4", "Plain", "moore", [⟨"a", "A", true, false⟩], []⟩

/-- One initial state named `idle` and no transitions. -/
def mIdle : StateMachine := ⟨"m5", "Idle", "moore", [⟨"s1", "idle", true, false⟩], []⟩

lemma discover_append_nodup (cur : String) :
    ∀ (ts : List Transition) (r : List String), r.Nodup → (r ++ discover ts cur r).Nodup := by
  intro ts
  induction ts with
  | nil => intro r h; simpa [discover] using h
  | cons t rest ih =>
    intro r h
    by_cases hc : t.from_ = cur ∧ t.to_ ∉ r
    · simp only [discover, if_pos hc]
      rw [List.append_cons]
      exact ih (r ++ [t.to_]) (by simp [List.nodup_append, h, hc.2])
    · simp only [discover, if_neg hc]
      exact ih r h

lemma discover_to_mem (cur : String) :
    ∀ (ts : List Transition) (r : List String) (x : String),
      x ∈ discover ts cur r → ∃ t ∈ ts, t.to_ = x := by
  intro ts
  induction ts with
  | nil => intro r x hx; simp [discover] at hx
  | cons t rest ih =>
    intro r x hx
    by_cases hc : t.from_ = cur ∧ t.to_ ∉ r
    · simp only [discover, if_pos hc] at hx
      rcases List.mem_cons.mp hx with rfl | hx'
      · exact ⟨t, List.mem_cons_self _ _, rfl⟩
      · obtain ⟨t', ht', h⟩ := ih (r ++ [t.to_]) x hx'
        exact ⟨t', List.mem_cons_of_mem _ ht', h⟩
    · simp only [discover, if_neg hc] at hx
      obtain ⟨t', ht', h⟩ := ih r x hx
      exact ⟨t', List.mem_cons_of_mem _ ht', h⟩

lemma discover_covers (cur : String) :
    ∀ (ts : List Transition) (r : List String) (t : Transition),
      t ∈ ts → t.from_ = cur → t.to_ ∈ r ++ discover ts cur r := by
  intro ts
  induction ts with
  | nil => intro r t ht; cases ht
  | cons t0 rest ih =>
    intro r t ht hf
    by_cases hc : t0.from_ = cur ∧ t0.to_ ∉ r
    · simp only [discover, if_pos hc]
      rcases List.mem_cons.mp ht with rfl | ht'
      · exact List.mem_append_right _ (List.mem_cons_self _ _)
      · rw [List.append_cons]
        exact ih (r ++ [t0.to_]) t ht' hf
    · simp only [discover, if_neg hc]
      rcases List.mem_cons.mp ht with rfl | ht'
      · push_neg at hc
        exact List.mem_append_left _ (hc hf)
      · exact ih r t ht' hf

lemma bfsLoop_mem_closed (ts : List Transition) (U : List String)
    (hto : ∀ t ∈ ts, t.to_ ∈ U) :
    ∀ (fuel : Nat) (q r : List String), r.Nodup → (∀ x ∈ q, x ∈ r) → (∀ x ∈ r, x ∈ U) →
      (∀ x ∈ r, x ∈ q ∨ ∀ t ∈ ts, t.from_ = x → t.to_ ∈ r) →
      U.length + 1 + q.length ≤ fuel + r.length →
      (∀ x ∈ r, x ∈ bfsLoop ts fuel q r) ∧ closedUnder ts (bfsLoop ts fuel q r) := by
  intro fuel
  induction fuel with
  | zero =>
    intro q r hnd _ hrU _ hfuel
    exfalso
    have hle : r.length ≤ U.length :=
      (List.subperm_of_subset hnd (fun x hx => hrU x hx)).length_le
    omega
  | succ fuel ih =>
    intro q r hnd hqr hrU hinv hfuel
    cases q with
    | nil =>
      refine ⟨fun x hx => hx, fun s hs t ht hft => ?_⟩
      rcases hinv s hs with h | h
      · exact absurd h (List.not_mem_nil s)
      · exact h t ht hft
    | cons cur q' =>
      have hstep : bfsLoop ts (fuel + 1) (cur :: q') r =
          bfsLoop ts fuel (q' ++ discover ts cur r) (r ++ discover ts cur r) := rfl
      rw [hstep]
      have hnd' : (r ++ discover ts cur r).Nodup := discover_append_nodup cur ts r hnd
      have hq' : ∀ x ∈ q' ++ discover ts cur r, x ∈ r ++ discover ts cur r := by
        intro x hx
        rcases List.mem_append.mp hx with hx | hx
        · exact List.mem_append_left _ (hqr x (List.mem_cons_of_mem _ hx))
        · exact List.mem_append_right _ hx
      have hrU' : ∀ x ∈ r ++ discover ts cur r, x ∈ U := by
        intro x hx
        rcases List.mem_append.mp hx with hx | hx
        · exact hrU x hx
        · obtain ⟨t, ht, h⟩ := discover_to_mem cur ts r x hx
          exact h ▸ hto t ht
      have hinv' : ∀ x ∈ r ++ discover ts cur r,
          x ∈ q' ++ discover ts cur r ∨
            ∀ t ∈ ts, t.from_ = x → t.to_ ∈ r ++ discover ts cur r := by
        intro x hx
        rcases List.mem_append.mp hx with hx | hx
        · rcases hinv x hx with h | h
          · rcases List.mem_cons.mp h with rfl | h'
            · exact Or.inr (fun t ht hft => discover_covers x ts r t ht hft)
            · exact Or.inl (List.mem_append_left _ h')
          · exact Or.inr (fun t ht hft => List.mem_append_left _ (h t ht hft))
        · exact Or.inl (List.mem_append_right _ hx)
      have hfuel' : U.length + 1 + (q' ++ discover ts cur r).length ≤
          fuel + (r ++ discover ts cur r).length := by
        simp only [List.length_append, List.length_cons] at hfuel ⊢
        omega
      obtain ⟨hmono, hcl⟩ :=
        ih (q' ++ discover ts cur r) (r ++ discover ts cur r) hnd' hq' hrU' hinv' hfuel'
      exact ⟨fun x hx => hmono x (List.mem_append_left _ hx), hcl⟩

lemma reachable_mem_and_closed (m : StateMachine) :
    closedUnder m.transitions (reachableStatesBFS m) ∧
      (findInitialId m ≠ "" → findInitialId m ∈ reachableStatesBFS m) := by
  by_cases h : findInitialId m = ""
  · constructor
    · intro s hs
      rw [reachableStatesBFS, if_pos h] at hs
      exact absurd hs (List.not_mem_nil s)
    · intro hne; exact absurd h hne
  · have hmain := bfsLoop_mem_closed m.transitions
      (findInitialId m :: m.transitions.map (fun t => t.to_))
      (fun t ht => List.mem_cons_of_mem _ (List.mem_map_of_mem _ ht))
      (m.transitions.length + 2) [findInitialId m] [findInitialId m]
      (by simp)
      (fun x hx => hx)
      (by
        intro x hx
        rcases List.mem_singleton.mp hx with rfl
        exact List.mem_cons_self _ _)
      (fun x hx => Or.inl hx)
      (by simp)
    rw [reachableStatesBFS, if_neg h]
    exact ⟨hmain.2, fun _ => hmain.1 (findInitialId m) (List.mem_singleton.mpr rfl)⟩

lemma endpointStep_fst (m : StateMachine) (acc : Bool × List String) (t : Transition) :
    (endpointStep m acc t).1 =
      (acc.1 &&
        (m.states.any (fun s => s.id == t.from_) && m.states.any (fun s => s.id == t.to_))) := by
  unfold endpointStep
  by_cases h1 : m.states.any (fun s => s.id == t.from_) = true <;>
    by_cases h2 : m.states.any (fun s => s.id == t.to_) = true <;>
      simp [h1, h2]

lemma endpointFold_fst (m : StateMachine) :
    ∀ (ts : List Transition) (acc : Bool × List String),
      (ts.foldl (endpointStep m) acc).1 =
        (acc.1 && ts.all (fun t =>
          m.states.any (fun s => s.id == t.from_) &&
            m.states.any (fun s => s.id == t.to_))) := by
  intro ts
  induction ts with
  | nil => intro acc; simp
  | cons t rest ih =>
    intro acc
    rw [List.foldl_cons, ih, endpointStep_fst, List.all_cons]
    simp [Bool.and_assoc]

lemma generateReport_isValid (m : StateMachine) :
    (generateReport m).isValid =
      (m.transitions.foldl (endpointStep m)
        (if (m.states.filter (fun s => s.isInitial)).length = 0 then
           (false, ["ERROR: No initial state defined"])
         else if 1 < (m.states.filter (fun s => s.isInitial)).length then
           (false, ["ERROR: Multiple initial states defined"])
         else (true, []))).1 := rfl

lemma isValid_iff_structural (m : StateMachine) :
    (generateReport m).isValid = true ↔
      ((m.states.filter (fun s => s.isInitial)).length = 1 ∧
        ∀ t ∈ m.transitions,
          (∃ s ∈ m.states, s.id = t.from_) ∧ (∃ s ∈ m.states, s.id = t.to_)) := by
  rw [generateReport_isValid, endpointFold_fst]
  rcases Nat.lt_trichotomy (m.states.filter (fun s => s.isInitial)).length 1 with h | h | h
  · have h0 : (m.states.filter (fun s => s.isInitial)).length = 0 := by omega
    simp [h0]
  · simp only [h, if_neg (by omega : ¬ (1 : Nat) = 0), if_neg (by omega : ¬ 1 < 1)]
    simp [List.all_eq_true, Bool.and_eq_true, List.any_eq_true, beq_iff_eq, h]
  · simp only [if_neg (by omega : ¬ (m.states.filter (fun s => s.isInitial)).length = 0),
      if_pos h]
    simp
    omega

/-- C1: `generateReport` returns `isValid == true` iff exactly one state has
`isInitial` set and every transition's `from` and `to` identifier names some
state of the machine; no other condition (unreachable states, deadlocks,
unreachable final states) affects `isValid`. -/
theorem generateReport_isValid_iff :
    ∀ m : StateMachine, (generateReport m).isValid = true ↔
      ((m.states.filter (fun s => s.isInitial)).length = 1 ∧
        ∀ t ∈ m.transitions,
          (∃ s ∈ m.states, s.id = t.from_) ∧ (∃ s ∈ m.states, s.id = t.to_)) :=
  fun m => isValid_iff_structural m

/-- C2 (amended): the reachable set is closed under outgoing transitions, and
contains the selected initial state whenever one exists whose identifier is
nonempty (the C++ treats an empty identifier of the first initial state as "no
initial state", see `reachable_not_seeded_emptyId`). -/
theorem reachable_closed_and_contains_init :
    ∀ m : StateMachine,
      closedUnder m.transitions (reachableStatesBFS m) ∧
        (∀ s : State, m.states.find? (fun s2 => s2.isInitial) = some s → s.id ≠ "" →
          s.id ∈ reachableStatesBFS m) := by
  intro m
  refine ⟨(reachable_mem_and_closed m).1, ?_⟩
  intro s hfind hne
  have hid : findInitialId m = s.id := by rw [findInitialId, hfind]
  have h := (reachable_mem_and_closed m).2 (by rw [hid]; exact hne)
  rwa [hid] at h

/-- C2 counterexample: in `mEmptyId` a state flagged initial exists (so an
initial state is selected), yet the computed reachable set is empty and in
particular does not contain that state's identifier. -/
theorem reachable_not_seeded_emptyId :
    (∃ s ∈ mEmptyId.states, s.isInitial = true) ∧
      reachableStatesBFS mEmptyId = [] := by decide

/-- C5 (amended): the traversal is seeded by exactly the first state whose
`isInitial` flag is set, provided that state's identifier is nonempty; if no
state is flagged initial — or the first initial state's identifier is the
empty string — the reachable set is empty, with no fallback to the first
state of the list. -/
theorem reachable_seed_spec :
    ∀ m : StateMachine,
      (m.states.find? (fun s => s.isInitial) = none → reachableStatesBFS m = []) ∧
        (∀ s : State, m.states.find? (fun s2 => s2.isInitial) = some s →
          ((s.id = "" → reachableStatesBFS m = []) ∧
            (s.id ≠ "" →
              reachableStatesBFS m =
                bfsLoop m.transitions (m.transitions.length + 2) [s.id] [s.id] ∧
                s.id ∈ reachableStatesBFS m))) := by
  intro m
  constructor
  · intro hnone
    have h : findInitialId m = "" := by rw [findInitialId, hnone]
    simp [reachableStatesBFS, h]
  · intro s hfind
    have hid : findInitialId m = s.id := by rw [findInitialId, hfind]
    constructor
    · intro he
      simp [reachableStatesBFS, hid, he]
    · intro hne
      refine ⟨?_, ?_⟩
      · rw [reachableStatesBFS, if_neg (by rw [hid]; exact hne), hid]
      · have h := (reachable_mem_and_closed m).2 (by rw [hid]; exact hne)
        rwa [hid] at h

/-- C5 counterexample: in `mEmptyId` the first (and only) state is flagged
initial, yet the traversal is not seeded by it: the reachable set comes out
empty instead of containing that state's identifier. -/
theorem reachable_seed_emptyId :
    mEmptyId.states.find? (fun s => s.isInitial) = some ⟨"", "A", true, false⟩ ∧
      reachableStatesBFS mEmptyId = [] := by decide

lemma generateReport_warnings (m : StateMachine) :
    (generateReport m).warnings =
      (if (reachableStatesBFS m).length < m.states.length then
        (m.states.filter (fun s => !((reachableStatesBFS m).contains s.id))).map
          (fun s => "WARNING: Unreachable state: " ++ s.name)
      else []) ++
        (findDeadlocks m).map (fun d => "WARNING: Potential deadlock state: " ++ d) ++
        (if (canReachFinalState m).isReachable then []
         else ["WARNING: No final state is reachable"]) := rfl

/-- C3 (amended): when the reachable-set size is smaller than the state count,
`generateReport` warns about every listed state whose identifier is absent
from the reachable set; warnings never change `isValid` (`isValid` remains
exactly the structural condition of C1).  The guard can be defeated by
dangling transition targets, see `generateReport_missing_warning`. -/
theorem generateReport_unreachable_warnings :
    ∀ m : StateMachine,
      ((reachableStatesBFS m).length < m.states.length →
        ∀ s ∈ m.states, s.id ∉ reachableStatesBFS m →
          ("WARNING: Unreachable state: " ++ s.name) ∈ (generateReport m).warnings) ∧
        ((generateReport m).isValid = true ↔
          ((m.states.filter (fun s => s.isInitial)).length = 1 ∧
            ∀ t ∈ m.transitions,
              (∃ s ∈ m.states, s.id = t.from_) ∧ (∃ s ∈ m.states, s.id = t.to_))) := by
  intro m
  refine ⟨?_, isValid_iff_structural m⟩
  intro hlt s hs habs
  rw [generateReport_warnings]
  apply List.mem_append_left
  apply List.mem_append_left
  rw [if_pos hlt]
  apply List.mem_map.mpr
  refine ⟨s, List.mem_filter.mpr ⟨hs, ?_⟩, rfl⟩
  simpa using habs

/-- C3 counterexample: in `mDangling` the state `b` is absent from the
reachable set, yet no unreachable-state warning for it is emitted, because the
dangling targets `x` and `y` inflate the reachable-set size to 3 ≥ 2 and the
guard of Verifier.cpp line 304 skips the warning loop. -/
theorem generateReport_missing_warning :
    ((⟨"b", "B", false, false⟩ : State) ∈ mDangling.states) ∧
      ("b" ∉ reachableStatesBFS mDangling) ∧
      ("WARNING: Unreachable state: B") ∉ (generateReport mDangling).warnings := by decide

/-- C4 (amended): for an expression containing neither `"!="` nor `"=="`,
`checkInvariant` returns `holds == true` provided every identifier in the
computed reachable set names some state of the machine; a reachable identifier
naming no state (a dangling transition target) makes the evaluator return
`false` regardless of the expression, see `checkInvariant_no_operator_violation`. -/
theorem checkInvariant_no_operator_holds :
    ∀ (m : StateMachine) (e : String),
      hasSubstr e "!=" = false → hasSubstr e "==" = false →
      (∀ x ∈ reachableStatesBFS m, ∃ s ∈ m.states, s.id = x) →
      (checkInvariant m e).holds = true := by
  intro m e h1 h2 hstates
  have hfind : (getReachableStates m).find?
      (fun stateId => !(evaluateExpression e m stateId)) = none := by
    apply List.find?_eq_none.mpr
    intro x hx
    obtain ⟨s, hs, hid⟩ := hstates x hx
    have hsome : (m.states.find? (fun s2 => s2.id == x)).isSome :=
      List.find?_isSome.mpr ⟨s, hs, by simp [hid]⟩
    obtain ⟨s', hs'⟩ := Option.isSome_iff_exists.mp hsome
    simp [evaluateExpression, hs', h1, h2]
  simp [checkInvariant, hfind]

/-- Witness for C4 at a machine whose reachable set is exactly its one listed
state. -/
theorem checkInvariant_no_operator_holds_witness :
    (checkInvariant mPlain "hello").holds = true :=
  checkInvariant_no_operator_holds mPlain "hello" (by decide) (by decide) (by decide)

/-- C4 counterexample: the expression `"hello"` contains neither operator, yet
`checkInvariant` reports a violation on `mSingleDangling`, because the
dangling reachable identifier `x` names no state and the evaluator returns
`false` for it before looking at the expression. -/
theorem checkInvariant_no_operator_violation :
    hasSubstr "hello" "!=" = false ∧ hasSubstr "hello" "==" = false ∧
      (checkInvariant mSingleDangling "hello").holds = false := by decide

/-- C6: when the expression contains `"!="` — even if it also contains
`"=="` — the per-state predicate of `checkInvariant` holds iff the state's
display name differs from the third whitespace-separated token; the first
token is never consulted and the comparison is against the name, not the
identifier. -/
theorem evaluateExpression_ne_iff :
    ∀ (m : StateMachine) (e : String) (s : State),
      s ∈ m.states →
      (∀ s2 ∈ m.states, s2.id = s.id → s2.name = s.name) →
      hasSubstr e "!=" = true →
      (evaluateExpression e m s.id = true ↔ s.name ≠ thirdTokenOf e) := by
  intro m e s hs huniq hne
  have hsome : (m.states.find? (fun s2 => s2.id == s.id)).isSome :=
    List.find?_isSome.mpr ⟨s, hs, by simp⟩
  obtain ⟨s', hs'⟩ := Option.isSome_iff_exists.mp hsome
  have hmem : s' ∈ m.states := List.mem_of_find?_eq_some hs'
  have hid : s'.id = s.id := by simpa using List.find?_some hs'
  have hname : s'.name = s.name := huniq s' hmem hid
  simp [evaluateExpression, hs', hne, hname, bne_iff_ne]

/-- Witness for C6: the expression carries both operators and three-plus
tokens; the inequality reading against the third token `dead` wins, and the
state named `idle` satisfies it. -/
theorem evaluateExpression_ne_iff_witness :
    evaluateExpression "state != dead == x" mIdle "s1" = true :=
  (evaluateExpression_ne_iff mIdle "state != dead == x" ⟨"s1", "idle", true, false⟩
    (by decide) (by decide) (by decide)).mpr (by decide)

/-- C7: `findDeadlocks` returns exactly the identifiers of listed states with
no outgoing transition that are not flagged final; membership mentions no
reachability. -/
theorem findDeadlocks_mem_iff :
    ∀ (m : StateMachine) (x : String),
      x ∈ findDeadlocks m ↔
        ∃ s ∈ m.states, s.id = x ∧ (∀ t ∈ m.transitions, t.from_ ≠ x) ∧
          s.isFinal = false := by
  intro m x
  rw [findDeadlocks]
  simp only [List.mem_map, List.mem_filter, Bool.and_eq_true, Bool.not_eq_true']
  constructor
  · rintro ⟨s, ⟨hs, hdl, hfin⟩, rfl⟩
    refine ⟨s, hs, rfl, ?_, hfin⟩
    intro t ht
    have hdl2 : m.transitions.all (fun t2 => t2.from_ != s.id) = true := by
      simpa only [isDeadlock] using hdl
    exact bne_iff_ne.mp (List.all_eq_true.mp hdl2 t ht)
  · rintro ⟨s, hs, rfl, hnofrom, hfin⟩
    refine ⟨s, ⟨hs, ?_, hfin⟩, rfl⟩
    rw [isDeadlock]
    exact List.all_eq_true.mpr (fun t ht => bne_iff_ne.mpr (hnofrom t ht))

/-- C8: a deadlocked state (no outgoing transitions) vacuously satisfies the
livelock predicate as well. -/
theorem isDeadlock_isLivelock :
    ∀ (m : StateMachine) (stateId : String),
      isDeadlock m stateId = true → isLivelock m stateId = true := by
  intro m sid h
  rw [isLivelock]
  apply List.all_eq_true.mpr
  intro t ht
  have h2 : m.transitions.all (fun t2 => t2.from_ != sid) = true := by
    simpa only [isDeadlock] using h
  have hne : t.from_ ≠ sid := bne_iff_ne.mp (List.all_eq_true.mp h2 t ht)
  simp [hne]

/-- Witness for C8: in `mDangling` the state `b` has no outgoing transition,
so it is a deadlock and hence also a livelock. -/
theorem isDeadlock_isLivelock_witness :
    isLivelock mDangling "b" = true :=
  isDeadlock_isLivelock mDangling "b" (by decide)

lemma find?_first {α : Type} (p : α → Bool) :
    ∀ (pre : List α) (s : α) (post : List α), (∀ x ∈ pre, ¬ p x = true) → p s = true →
      (pre ++ s :: post).find? p = some s := by
  intro pre
  induction pre with
  | nil =>
    intro s post _ hs
    simp [List.find?_cons, hs]
  | cons a pre ih =>
    intro s post hpre hs
    have ha : p a = false := by
      cases hpa : p a with
      | true => exact absurd hpa (hpre a (List.mem_cons_self _ _))
      | false => rfl
    rw [List.cons_append, List.find?_cons, ha]
    exact ih s post (fun x hx => hpre x (List.mem_cons_of_mem _ hx)) hs

lemma canReachFinalState_of_find (m : StateMachine) (s : State)
    (h : m.states.find?
      (fun s2 => s2.isFinal && (reachableStatesBFS m).contains s2.id) = some s) :
    canReachFinalState m =
      ⟨true, [], "Final state '" ++ s.name ++ "' is reachable"⟩ := by
  unfold canReachFinalState
  rw [h]

/-- C9: `canReachFinalState` reports `isReachable == true` iff some state
flagged final has its identifier in the reachable set, and then its message
names the first such final state in machine state order. -/
theorem canReachFinalState_spec :
    ∀ m : StateMachine,
      ((canReachFinalState m).isReachable = true ↔
        ∃ s ∈ m.states, s.isFinal = true ∧ s.id ∈ reachableStatesBFS m) ∧
        (∀ (pre : List State) (s : State) (post : List State),
          m.states = pre ++ s :: post →
          (∀ s2 ∈ pre, ¬(s2.isFinal = true ∧ s2.id ∈ reachableStatesBFS m)) →
          s.isFinal = true → s.id ∈ reachableStatesBFS m →
          (canReachFinalState m).message =
            "Final state '" ++ s.name ++ "' is reachable") := by
  intro m
  constructor
  · cases hfind : m.states.find?
        (fun s => s.isFinal && (reachableStatesBFS m).contains s.id) with
    | none =>
      have hnone := List.find?_eq_none.mp hfind
      simp only [canReachFinalState, hfind]
      constructor
      · intro h; exact absurd h (by simp)
      · rintro ⟨s, hs, hfin, hmem⟩
        exfalso
        exact hnone s hs (by simp [hfin, hmem])
    | some s2 =>
      have hp := List.find?_some hfind
      have hmem := List.mem_of_find?_eq_some hfind
      rw [Bool.and_eq_true] at hp
      simp only [canReachFinalState, hfind]
      exact iff_of_true trivial ⟨s2, hmem, hp.1, List.elem_iff.mp hp.2⟩
  · intro pre s post hsplit hpre hfin hmem
    have hfind : m.states.find?
        (fun s2 => s2.isFinal && (reachableStatesBFS m).contains s2.id) = some s := by
      rw [hsplit]
      apply find?_first
      · intro x hx hpx
        rw [Bool.and_eq_true] at hpx
        exact hpre x hx ⟨hpx.1, List.elem_iff.mp hpx.2⟩
      · rw [Bool.and_eq_true]
        exact ⟨hfin, List.elem_iff.mpr hmem⟩
    rw [canReachFinalState_of_find m s hfind]

/-- C10: in `mDangling` the dangling target `x` of a transition names no
state, yet it lies in the reachable set; the report counts it, so
`reachableStates` is 3 while only one of the two listed states is reachable,
and `reachableStates` exceeds `totalStates` even though the listed state `b`
is unreachable. -/
theorem dangling_reachable_counted :
    (∀ s ∈ mDangling.states, s.id ≠ "x") ∧
      "x" ∈ reachableStatesBFS mDangling ∧
      (generateReport mDangling).reachableStates = 3 ∧
      (generateReport mDangling).totalStates = 2 ∧
      (mDangling.states.filter
        (fun s => (reachableStatesBFS mDangling).contains s.id)).length = 1 ∧
      (∃ s ∈ mDangling.states, s.id ∉ reachableStatesBFS mDangling) := by decide

end ReactiveSystem
